import Mathlib

/-!
# Verification of `chrono-systemd-time` (systemd.time timestamp parsing)

Shallow embedding of `src/lib.rs` (the `parse_timestamp_tz` / `parse_time` /
`parse_offset` pipeline) and `src/local_datetime.rs` (the `LocalDateTime`
sum type with duration arithmetic).

Modelling conventions:
* Rust strings are `List Char`; byte-index slicing in the source always occurs
  at a boundary next to an ASCII character, so character-index slicing is an
  exact model of every slice the source performs.
* `i64` is `Int` with explicit range checks against `[-2^63, 2^63 - 1]`;
  `checked_mul` / `checked_add` return `Option Int`.
* chrono `DateTime<Tz>` values are modelled as the instant they denote,
  an `Int` count of microseconds since the Unix epoch (chrono equality on
  `DateTime` compares instants).  The time zone is modelled as a fixed
  offset `off` (microseconds east of UTC), covering `Utc` (`off = 0`) and
  every `FixedOffset` zone; for these zones `from_local_datetime` is total
  and single-valued.  The current time is a parameter `now`.
* `char::is_whitespace` (Unicode `White_Space`) is modelled exactly;
  `char::is_alphabetic` is modelled on the characters that can occur in a
  recognized time unit (ASCII letters and `µ`); differences only affect
  strings containing other non-ASCII letters, which no unit spelling uses.
* chrono's leap-second parsing (a seconds field of value 60) is outside the
  model: the embedded pattern parsers require seconds in `[0, 59]`.
-/

/-- Lower bound of Rust `i64`. -/
def i64Min : Int := -(2 ^ 63)

/-- Upper bound of Rust `i64`. -/
def i64Max : Int := 2 ^ 63 - 1

/-- Rust `i64::checked_mul`: `None` when the exact product leaves the
`i64` range. -/
def checkedMul (a b : Int) : Option Int :=
  if i64Min ≤ a * b ∧ a * b ≤ i64Max then some (a * b) else none

/-- Rust `i64::checked_add`: `None` when the exact sum leaves the
`i64` range. -/
def checkedAdd (a b : Int) : Option Int :=
  if i64Min ≤ a + b ∧ a + b ≤ i64Max then some (a + b) else none

/-- Rust `char::is_whitespace`: the Unicode `White_Space` code points. -/
def rustIsWhitespace (c : Char) : Bool :=
  (0x09 ≤ c.toNat && c.toNat ≤ 0x0D) || c.toNat = 0x20 || c.toNat = 0x85 ||
  c.toNat = 0xA0 || c.toNat = 0x1680 || (0x2000 ≤ c.toNat && c.toNat ≤ 0x200A) ||
  c.toNat = 0x2028 || c.toNat = 0x2029 || c.toNat = 0x202F || c.toNat = 0x205F ||
  c.toNat = 0x3000

/-- Rust `char::is_alphabetic`, restricted to the letters that occur in the
unit table (ASCII letters plus `µ`, U+00B5); see the module comment. -/
def rustIsAlphabetic (c : Char) : Bool :=
  c.isAlpha || c = 'µ'

/-- Numeric value of a run of ASCII digits (most significant first). -/
def digitsToNat (ds : List Char) : Nat :=
  ds.foldl (fun acc c => acc * 10 + (c.toNat - '0'.toNat)) 0

/-- Rust `str::parse::<i64>`: an optional sign followed by a nonempty run of
ASCII digits, rejected when the value leaves the `i64` range. -/
def rustParseI64Core (neg : Bool) (ds : List Char) : Option Int :=
  if ds = [] then none
  else if ds.all Char.isDigit then
    if neg then
      if (digitsToNat ds : Int) ≤ 2 ^ 63 then some (-(digitsToNat ds : Int)) else none
    else
      if (digitsToNat ds : Int) ≤ i64Max then some (digitsToNat ds : Int) else none
  else none

/-- Rust `str::parse::<i64>` on a full string. -/
def rustParseI64 (s : List Char) : Option Int :=
  match s with
  | '+' :: t => rustParseI64Core false t
  | '-' :: t => rustParseI64Core true t
  | _ => rustParseI64Core false s

/-! ## The unit table (`USEC_MULTIPLIER` in `src/lib.rs`) -/

def USEC_PER_USEC : Int := 1
def USEC_PER_MSEC : Int := 1000 * USEC_PER_USEC
def USEC_PER_SEC : Int := 1000 * USEC_PER_MSEC
def USEC_PER_MINUTE : Int := 60 * USEC_PER_SEC
def USEC_PER_HOUR : Int := 60 * USEC_PER_MINUTE
def USEC_PER_DAY : Int := 24 * USEC_PER_HOUR
def USEC_PER_WEEK : Int := 7 * USEC_PER_DAY
def USEC_PER_MONTH : Int := 2629800 * USEC_PER_SEC
def USEC_PER_YEAR : Int := 31557600 * USEC_PER_SEC

/-- The entries of the static `USEC_MULTIPLIER` map. -/
def USEC_MULTIPLIER_TABLE : List (String × Int) :=
  [("us", USEC_PER_USEC), ("usec", USEC_PER_USEC), ("µs", USEC_PER_USEC),
   ("ms", USEC_PER_MSEC), ("msec", USEC_PER_MSEC),
   ("s", USEC_PER_SEC), ("sec", USEC_PER_SEC), ("second", USEC_PER_SEC),
   ("seconds", USEC_PER_SEC),
   ("m", USEC_PER_MINUTE), ("min", USEC_PER_MINUTE), ("minute", USEC_PER_MINUTE),
   ("minutes", USEC_PER_MINUTE),
   ("h", USEC_PER_HOUR), ("hour", USEC_PER_HOUR), ("hours", USEC_PER_HOUR),
   ("hr", USEC_PER_HOUR),
   ("d", USEC_PER_DAY), ("day", USEC_PER_DAY), ("days", USEC_PER_DAY),
   ("M", USEC_PER_MONTH), ("month", USEC_PER_MONTH), ("months", USEC_PER_MONTH),
   ("w", USEC_PER_WEEK), ("week", USEC_PER_WEEK), ("weeks", USEC_PER_WEEK),
   ("y", USEC_PER_YEAR), ("year", USEC_PER_YEAR), ("years", USEC_PER_YEAR)]

/-- `USEC_MULTIPLIER.get(unit)`: exact, case-sensitive lookup. -/
def USEC_MULTIPLIER (s : String) : Option Int :=
  (USEC_MULTIPLIER_TABLE.find? (fun e => e.1 == s)).map (fun e => e.2)

/-- The error type `InvalidTimestamp` of `src/lib.rs`. -/
inductive InvalidTimestamp where
  | Format (msg : String)
  | Number (msg : String)
  | TimeUnit (msg : String)
deriving DecidableEq, Repr

/-- `partition_predicate` of `src/lib.rs`: split off the longest prefix of
characters satisfying the predicate. -/
def partition_predicate (ts : List Char) (p : Char → Bool) : List Char × List Char :=
  (ts.takeWhile p, ts.dropWhile p)

/-- The loop body of `parse_offset` (`src/lib.rs` lines 399-441).  `fuel` is a
standard structural-recursion bound; every successful iteration consumes at
least one character, so `fuel = ts.length + 1` makes the zero-fuel branch
unreachable (`parse_offset` below always supplies that much). -/
def parse_offset_go (fuel : Nat) (total : Int) (ts : List Char) :
    Except InvalidTimestamp Int :=
  match fuel with
  | 0 => .error (.Format "unreachable: fuel exhausted")
  | fuel + 1 =>
    if ts = [] then .ok total
    else
      let (digits, tsTail) := partition_predicate ts Char.isDigit
      let (letters, tsTail2) := partition_predicate tsTail rustIsAlphabetic
      match rustParseI64 digits with
      | none =>
        .error (.Number ("Cannot parse `" ++ digits.asString ++ "` into a number"))
      | some number =>
        match USEC_MULTIPLIER letters.asString with
        | none =>
          .error (.TimeUnit ("Cannot parse `" ++ letters.asString ++ "` into a multipler"))
        | some multiplier =>
          match (checkedMul number multiplier).bind (fun usec => checkedAdd usec total) with
          | none =>
            .error (.Number ("Offset microseconds overflowed: total_usecs `" ++
              toString total ++ "` number `" ++ toString number ++
              "` multiplier `" ++ toString multiplier ++ "`"))
          | some usecs => parse_offset_go fuel usecs tsTail2

/-- `parse_offset` of `src/lib.rs`: parse and combine all time spans of a
whitespace-stripped string into a single microsecond duration. -/
def parse_offset (ts : List Char) : Except InvalidTimestamp Int :=
  parse_offset_go (ts.length + 1) 0 ts

/-- Mathematically exact accumulation for the same component grammar, with no
64-bit bounds anywhere: the reference against which `parse_offset` is shown
never to wrap, truncate or saturate.  (Comparison definition for the
overflow claims, mirroring the spec's "accumulated microsecond total".) -/
def parse_offset_unbounded_go (fuel : Nat) (total : Int) (ts : List Char) : Option Int :=
  match fuel with
  | 0 => none
  | fuel + 1 =>
    if ts = [] then some total
    else
      let (digits, tsTail) := partition_predicate ts Char.isDigit
      let (letters, tsTail2) := partition_predicate tsTail rustIsAlphabetic
      if digits = [] then none
      else
        match USEC_MULTIPLIER letters.asString with
        | none => none
        | some multiplier =>
          parse_offset_unbounded_go fuel (total + (digitsToNat digits : Int) * multiplier) tsTail2

/-- Exact (unbounded) offset total; `none` when the component grammar itself
fails (empty digit run or unknown unit). -/
def parse_offset_unbounded (ts : List Char) : Option Int :=
  parse_offset_unbounded_go (ts.length + 1) 0 ts

/-! ## chrono pattern parsing

The source resolves calendar/clock strings through chrono's strftime parser
with the formats `"%y-%m-%d %H:%M:%S"`, `"%Y-%m-%d %H:%M:%S"`,
`"%y-%m-%d %H:%M"`, `"%Y-%m-%d %H:%M"`, `"%y-%m-%d"`, `"%Y-%m-%d"`,
`"%H:%M:%S"`, `"%H:%M"`.  chrono compiles such a format to a sequence of
items: a literal character must match exactly; whitespace in the format
becomes a "space" item matching any (possibly empty) run of whitespace; a
numeric specifier first skips whitespace, then reads one up to `width`
digits (width 2 for all fields here except `%Y`, width 4, which also accepts
an explicitly signed unbounded digit run).  Parsing fails if input remains
after the last item. -/

inductive FmtItem where
  | lit (c : Char)
  | sp
  | numYear | numYearMod | numMonth | numDay | numHour | numMinute | numSecond
deriving DecidableEq, Repr

/-- Fields collected by chrono's `Parsed` during a single format run. -/
structure ChronoParsed where
  pyear : Option Int := none
  pyearMod : Option Int := none
  pmonth : Option Int := none
  pday : Option Int := none
  phour : Option Int := none
  pminute : Option Int := none
  psecond : Option Int := none
deriving DecidableEq, Repr

/-- chrono `scan::number`: read between 1 and `w` ASCII digits greedily,
failing if the value leaves the `i64` range. -/
def scanNumber (w : Nat) (s : List Char) : Option (Int × List Char) :=
  let ds := (s.takeWhile Char.isDigit).take w
  if ds = [] then none
  else if (digitsToNat ds : Int) ≤ i64Max then
    some ((digitsToNat ds : Int), s.drop ds.length)
  else none

/-- chrono numeric-item parsing: skip leading whitespace, then (for the signed
`%Y` field) an explicit `+`/`-` allows an unbounded digit run, otherwise read
at most `w` digits. -/
def parseNumeric (signed : Bool) (w : Nat) (s : List Char) : Option (Int × List Char) :=
  let s1 := s.dropWhile rustIsWhitespace
  if signed then
    match s1 with
    | '-' :: t => (scanNumber t.length t).map (fun vr => (-vr.1, vr.2))
    | '+' :: t => scanNumber t.length t
    | _ => scanNumber w s1
  else scanNumber w s1

def setField (f : FmtItem) (v : Int) (p : ChronoParsed) : ChronoParsed :=
  match f with
  | .numYear => { p with pyear := some v }
  | .numYearMod => { p with pyearMod := some v }
  | .numMonth => { p with pmonth := some v }
  | .numDay => { p with pday := some v }
  | .numHour => { p with phour := some v }
  | .numMinute => { p with pminute := some v }
  | .numSecond => { p with psecond := some v }
  | _ => p

def fmtSigned : FmtItem → Bool
  | .numYear => true
  | _ => false

def fmtWidth : FmtItem → Nat
  | .numYear => 4
  | _ => 2

/-- Run a chrono item sequence over the input; the whole input must be
consumed. -/
def runItems (fmt : List FmtItem) (p : ChronoParsed) (s : List Char) :
    Option ChronoParsed :=
  match fmt with
  | [] => if s = [] then some p else none
  | .lit c :: fs =>
    match s with
    | c2 :: t => if c2 = c then runItems fs p t else none
    | [] => none
  | .sp :: fs => runItems fs p (s.dropWhile rustIsWhitespace)
  | f :: fs =>
    match parseNumeric (fmtSigned f) (fmtWidth f) s with
    | none => none
    | some (v, r) => runItems fs (setField f v p) r

def fmtD2 : List FmtItem :=
  [.numYearMod, .lit '-', .numMonth, .lit '-', .numDay]
def fmtD4 : List FmtItem :=
  [.numYear, .lit '-', .numMonth, .lit '-', .numDay]
def fmtHMS : List FmtItem :=
  [.numHour, .lit ':', .numMinute, .lit ':', .numSecond]
def fmtHM : List FmtItem :=
  [.numHour, .lit ':', .numMinute]
def fmtD2HMS : List FmtItem := fmtD2 ++ [.sp] ++ fmtHMS
def fmtD4HMS : List FmtItem := fmtD4 ++ [.sp] ++ fmtHMS
def fmtD2HM : List FmtItem := fmtD2 ++ [.sp] ++ fmtHM
def fmtD4HM : List FmtItem := fmtD4 ++ [.sp] ++ fmtHM

/-- chrono's two-digit-year century inference: `[0, 69]` maps to the 2000s,
`[70, 99]` to the 1900s. -/
def resolveYear (p : ChronoParsed) : Option Int :=
  match p.pyear, p.pyearMod with
  | some y, _ => some y
  | none, some q => some (if q < 70 then 2000 + q else 1900 + q)
  | none, none => none

def isLeapYear (y : Int) : Bool :=
  y % 4 = 0 && (y % 100 ≠ 0 || y % 400 = 0)

def daysInMonth (y m : Int) : Int :=
  if m = 2 then (if isLeapYear y then 29 else 28)
  else if m = 4 ∨ m = 6 ∨ m = 9 ∨ m = 11 then 30
  else 31

/-- `NaiveDate::from_ymd_opt` validity (chrono's year range is
`[-262144, 262143]`). -/
def fromYmdValid (y m d : Int) : Prop :=
  -262144 ≤ y ∧ y ≤ 262143 ∧ 1 ≤ m ∧ m ≤ 12 ∧ 1 ≤ d ∧ d ≤ daysInMonth y m

instance (y m d : Int) : Decidable (fromYmdValid y m d) := by
  unfold fromYmdValid; infer_instance

/-- Days from the Unix epoch of a proleptic Gregorian civil date
(the standard `days_from_civil` computation). -/
def daysFromCivil (y m d : Int) : Int :=
  let yy := if m ≤ 2 then y - 1 else y
  let era := (if 0 ≤ yy then yy else yy - 399) / 400
  let yoe := yy - era * 400
  let doy := (153 * ((m + 9) % 12) + 2) / 5 + d - 1
  let doe := yoe * 365 + yoe / 4 - yoe / 100 + doy
  era * 146097 + doe - 719468

/-- `Parsed::to_naive_date`: resolved civil date as days since the epoch. -/
def toNaiveDate (p : ChronoParsed) : Option Int :=
  (resolveYear p).bind fun y =>
    p.pmonth.bind fun m =>
      p.pday.bind fun d =>
        if fromYmdValid y m d then some (daysFromCivil y m d) else none

/-- `Parsed::to_naive_time`: time of day in microseconds (seconds default
to 0 when the format has no `%S`; leap seconds are outside the model). -/
def toNaiveTime (p : ChronoParsed) : Option Int :=
  p.phour.bind fun h =>
    p.pminute.bind fun mi =>
      let s := p.psecond.getD 0
      if 0 ≤ h ∧ h ≤ 23 ∧ 0 ≤ mi ∧ mi ≤ 59 ∧ 0 ≤ s ∧ s ≤ 59 then
        some (((h * 60 + mi) * 60 + s) * USEC_PER_SEC)
      else none

/-- `tz.datetime_from_str(s, fmt)` for a fixed-offset zone `off`:
parse a civil date-time, then resolve it to the instant `naive - off`
(always `Single` for a fixed offset). -/
def datetime_from_str (off : Int) (fmt : List FmtItem) (s : List Char) : Option Int :=
  (runItems fmt {} s).bind fun p =>
    (toNaiveDate p).bind fun days =>
      (toNaiveTime p).map fun tod => days * USEC_PER_DAY + tod - off

/-- `NaiveDate::parse_from_str`: days since the epoch. -/
def naive_date_from_str (fmt : List FmtItem) (s : List Char) : Option Int :=
  (runItems fmt {} s).bind toNaiveDate

/-- `NaiveTime::parse_from_str`: time of day in microseconds. -/
def naive_time_from_str (fmt : List FmtItem) (s : List Char) : Option Int :=
  (runItems fmt {} s).bind toNaiveTime

/-! ## `parse_time` (`src/lib.rs` lines 313-394) -/

/-- Civil date (days since epoch) of `today_with_timezone`:
the local calendar date of the current instant. -/
def todayDays (now off : Int) : Int :=
  Int.fdiv (now + off) USEC_PER_DAY

/-- `today_with_timezone(tz).and_hms(0, 0, 0)`: the instant of local
midnight today. -/
def todayAndHms0 (now off : Int) : Int :=
  todayDays now off * USEC_PER_DAY - off

/-- `today_with_timezone(tz).and_time(nt)`: today's local date with the
given time of day, as an instant. -/
def todayAndTime (now off tod : Int) : Int :=
  todayDays now off * USEC_PER_DAY + tod - off

/-- The three patterns tried for the part before a literal `.`
(`src/lib.rs` lines 340-349), first match wins. -/
def dotTimeCandidates (now off : Int) (ts_t : List Char) : Option Int :=
  datetime_from_str off fmtD2HMS ts_t <|>
  datetime_from_str off fmtD4HMS ts_t <|>
  (naive_time_from_str fmtHMS ts_t).map (fun tod => todayAndTime now off tod)

/-- The eight patterns tried for a plain (dot-free) time string
(`src/lib.rs` lines 363-390), first match wins. -/
def timeCandidates (now off : Int) (ts : List Char) : Option Int :=
  datetime_from_str off fmtD2HMS ts <|>
  datetime_from_str off fmtD4HMS ts <|>
  datetime_from_str off fmtD2HM ts <|>
  datetime_from_str off fmtD4HM ts <|>
  (naive_date_from_str fmtD2 ts).map (fun d => d * USEC_PER_DAY - off) <|>
  (naive_date_from_str fmtD4 ts).map (fun d => d * USEC_PER_DAY - off) <|>
  (naive_time_from_str fmtHMS ts).map (fun tod => todayAndTime now off tod) <|>
  (naive_time_from_str fmtHM ts).map (fun tod => todayAndTime now off tod)

/-- `parse_time` of `src/lib.rs`: resolve a point-in-time string (whitespace
intact) against the fixed-offset zone `off`, with current instant `now`. -/
def parse_time (now off : Int) (ts : List Char) : Except InvalidTimestamp Int :=
  if ts = "now".data then .ok now
  else if ts = "epoch".data then .ok 0
  else if ts = "today".data then .ok (todayAndHms0 now off)
  else if ts = "yesterday".data then .ok (todayAndHms0 now off - USEC_PER_DAY)
  else if ts = "tomorrow".data then .ok (todayAndHms0 now off + USEC_PER_DAY)
  else if '.' ∈ ts then
    let ts_t := ts.takeWhile (fun c => c ≠ '.')
    let ts_u := (ts.dropWhile (fun c => c ≠ '.')).drop 1
    match dotTimeCandidates now off ts_t with
    | none =>
      .error (.Format ("Cannot parse `" ++ ts_t.asString ++ "` before '.' into a time"))
    | some dt =>
      match rustParseI64 ts_u with
      | none =>
        .error (.Number ("Cannot parse `" ++ ts_u.asString ++ "` after '.' into a number"))
      | some usecs => .ok (dt + usecs)
  else
    match timeCandidates now off ts with
    | some dt => .ok dt
    | none => .error (.Format ("Cannot parse `" ++ ts.asString ++ "` into a time"))

/-! ## `parse_timestamp_tz` (`src/lib.rs` lines 229-307) -/

/-- The whitespace-stripped copy `ts_nw` of the timestamp. -/
def stripWs (ts : List Char) : List Char :=
  ts.filter (fun c => !(rustIsWhitespace c))

/-- Index (in characters) of the first occurrence of `pat` as a contiguous
substring, like `str::find` with a string pattern. -/
def findSubstr (pat : List Char) : List Char → Option Nat
  | [] => if pat.isPrefixOf ([] : List Char) then some 0 else none
  | c :: t =>
    if pat.isPrefixOf (c :: t) then some 0
    else (findSubstr pat t).map (fun n => n + 1)

/-- Everything after the first occurrence of `c` (models
`&s[(s.find(c).unwrap() + 1)..]`; the callers guarantee `c` occurs). -/
def afterFirstChar (c : Char) (s : List Char) : List Char :=
  (s.dropWhile (fun x => x ≠ c)).drop 1

/-- Everything after the last occurrence of `c` (models
`&s[(s.rfind(c).unwrap() + 1)..]`; the callers guarantee `c` occurs). -/
def afterLastChar (c : Char) (s : List Char) : List Char :=
  (s.reverse.takeWhile (fun x => x ≠ c)).reverse

/-- `parse_timestamp_tz` of `src/lib.rs`: the top-level entry point, for a
fixed-offset zone `off` with current instant `now`.  The epoch instant
`tz.timestamp(0, 0)` is `0` for every zone. -/
def parse_timestamp_tz (now off : Int) (ts : List Char) : Except InvalidTimestamp Int :=
  let ts_nw := stripWs ts
  if ts_nw = [] then .error (.Format "Timestamp cannot be empty")
  else if ts.head? = some '+' then
    (parse_offset (ts_nw.drop 1)).map (fun o => now + o)
  else if " left".data.isSuffixOf ts then
    (parse_offset (ts_nw.take (ts_nw.length - 4))).map (fun o => now + o)
  else if ts.head? = some '-' then
    (parse_offset (ts_nw.drop 1)).map (fun o => now - o)
  else if " ago".data.isSuffixOf ts then
    (parse_offset (ts_nw.take (ts_nw.length - 3))).map (fun o => now - o)
  else if ts.head? = some '@' then
    (parse_offset (ts_nw.drop 1)).map (fun o => 0 + o)
  else
    match findSubstr " +".data ts, findSubstr " -".data ts with
    | some _, some _ =>
      .error (.Format "Timestamp cannot contain both a `+` and `-`")
    | some p, none =>
      (parse_time now off (ts.take p)).bind fun t =>
        (parse_offset (afterFirstChar '+' ts_nw)).map fun o => t + o
    | none, some m =>
      (parse_time now off (ts.take m)).bind fun t =>
        (parse_offset (afterLastChar '-' ts_nw)).map fun o => t - o
    | none, none => parse_time now off ts

/-! ## `LocalDateTime` (`src/local_datetime.rs`) -/

/-- The `LocalDateTime` sum type: a civil-to-instant conversion result that is
either unique or ambiguous (instants modelled as microsecond counts). -/
inductive LocalDateTime where
  | Single (dt : Int)
  | Ambiguous (dt1 dt2 : Int)
deriving DecidableEq, Repr

/-- `impl Add<Duration> for LocalDateTime` (lines 67-76). -/
def LocalDateTime.add (x : LocalDateTime) (rhs : Int) : LocalDateTime :=
  match x with
  | .Single dt => .Single (dt + rhs)
  | .Ambiguous dt1 dt2 => .Ambiguous (dt1 + rhs) (dt2 + rhs)

/-- `impl Sub<Duration> for LocalDateTime` (lines 78-87). -/
def LocalDateTime.sub (x : LocalDateTime) (rhs : Int) : LocalDateTime :=
  match x with
  | .Single dt => .Single (dt - rhs)
  | .Ambiguous dt1 dt2 => .Ambiguous (dt1 - rhs) (dt2 - rhs)

/-! ## Error-kind observers -/

def isFormatErr : Except InvalidTimestamp Int → Bool
  | .error (.Format _) => true
  | _ => false

def isNumberErr : Except InvalidTimestamp Int → Bool
  | .error (.Number _) => true
  | _ => false

def isTimeUnitErr : Except InvalidTimestamp Int → Bool
  | .error (.TimeUnit _) => true
  | _ => false

/-! ## Component decomposition of offset expressions -/

/-- A well-formed component list: each component is a nonempty digit run
paired with a recognized unit spelling. -/
def compsOk (comps : List (List Char × List Char)) : Prop :=
  ∀ c ∈ comps, c.1 ≠ [] ∧ (∀ ch ∈ c.1, ch.isDigit = true) ∧
    (USEC_MULTIPLIER c.2.asString).isSome = true

/-- Concatenation of `<digits><unit>` components into an offset string. -/
def flattenComps : List (List Char × List Char) → List Char
  | [] => []
  | c :: rest => c.1 ++ c.2 ++ flattenComps rest

/-- The exact sum over all components of `number × multiplier`. -/
def sumComps : List (List Char × List Char) → Int
  | [] => 0
  | c :: rest =>
    (digitsToNat c.1 : Int) * ((USEC_MULTIPLIER c.2.asString).getD 0) + sumComps rest

/-! ## Helper lemmas -/

theorem length_dropWhile_le (p : Char → Bool) (l : List Char) :
    (l.dropWhile p).length ≤ l.length := by
  induction l with
  | nil => simp
  | cons a t ih =>
    rw [List.dropWhile_cons]
    split
    · simp only [List.length_cons]
      omega
    · simp

theorem length_dropWhile_lt (p : Char → Bool) (l : List Char) (h : l.takeWhile p ≠ []) :
    (l.dropWhile p).length < l.length := by
  cases l with
  | nil => simp at h
  | cons a t =>
    rw [List.takeWhile_cons] at h
    rw [List.dropWhile_cons]
    split
    · have := length_dropWhile_le p t
      simp only [List.length_cons]
      omega
    · simp_all

theorem takeWhile_append_split (p : Char → Bool) (l1 l2 : List Char)
    (h1 : ∀ a ∈ l1, p a = true)
    (h2 : l2 = [] ∨ ∃ b t, l2 = b :: t ∧ p b = false) :
    (l1 ++ l2).takeWhile p = l1 ∧ (l1 ++ l2).dropWhile p = l2 := by
  induction l1 with
  | nil =>
    rcases h2 with h2 | ⟨b, t, rfl, hb⟩
    · subst h2; simp
    · simp [List.takeWhile_cons, List.dropWhile_cons, hb]
  | cons a t ih =>
    have ha : p a = true := h1 a (by simp)
    have iht := ih (fun x hx => h1 x (by simp [hx]))
    simp [List.takeWhile_cons, List.dropWhile_cons, ha, iht.1, iht.2]

/-- Every unit table entry has a positive multiplier and a nonempty,
all-alphabetic spelling. -/
theorem USEC_MULTIPLIER_entry {s : String} {m : Int} (h : USEC_MULTIPLIER s = some m) :
    1 ≤ m ∧ s.data ≠ [] ∧ ∀ c ∈ s.data, rustIsAlphabetic c = true := by
  have hall : ∀ e ∈ USEC_MULTIPLIER_TABLE,
      1 ≤ e.2 ∧ e.1.data ≠ [] ∧ ∀ c ∈ e.1.data, rustIsAlphabetic c = true := by
    decide
  unfold USEC_MULTIPLIER at h
  cases hf : USEC_MULTIPLIER_TABLE.find? (fun e => e.1 == s) with
  | none => rw [hf] at h; simp at h
  | some e =>
    rw [hf] at h
    have h2 : e.2 = m := by simpa using h
    have hmem := List.mem_of_find?_eq_some hf
    have hp : e.1 = s := by simpa using List.find?_some hf
    subst hp
    subst h2
    exact hall e hmem

/-- `str::parse::<i64>` on a nonempty all-digit run: succeeds with the exact
value iff the value fits. -/
theorem rustParseI64_all_digits {ds : List Char} (hne : ds ≠ [])
    (hd : ∀ c ∈ ds, c.isDigit = true) :
    rustParseI64 ds =
      if (digitsToNat ds : Int) ≤ i64Max then some ((digitsToNat ds : Int)) else none := by
  have hcore : rustParseI64Core false ds =
      if (digitsToNat ds : Int) ≤ i64Max then some ((digitsToNat ds : Int)) else none := by
    unfold rustParseI64Core
    rw [if_neg hne, if_pos (List.all_eq_true.mpr hd)]
    simp
  cases ds with
  | nil => simp at hne
  | cons c t =>
    have hc : c.isDigit = true := hd c (by simp)
    have hc1 : c ≠ '+' := by
      intro h
      subst h
      exact absurd hc (by decide)
    have hc2 : c ≠ '-' := by
      intro h
      subst h
      exact absurd hc (by decide)
    have hred : rustParseI64 (c :: t) = rustParseI64Core false (c :: t) := by
      unfold rustParseI64
      split
      · rename_i t2 heq
        injection heq with h1 h2
        exact absurd h1 hc1
      · rename_i t2 heq
        injection heq with h1 h2
        exact absurd h1 hc2
      · rfl
    rw [hred]
    exact hcore

theorem i64Min_neg : i64Min < 0 := by decide

/-- The exact accumulation only ever grows the running total. -/
theorem go_unbounded_mono :
    ∀ (fuel : Nat) (ts : List Char) (total v : Int),
      parse_offset_unbounded_go fuel total ts = some v → total ≤ v := by
  intro fuel
  induction fuel with
  | zero =>
    intro ts total v h
    simp [parse_offset_unbounded_go] at h
  | succ f ih =>
    intro ts total v h
    by_cases hts : ts = []
    · subst hts
      simp [parse_offset_unbounded_go] at h
      omega
    · simp only [parse_offset_unbounded_go, partition_predicate, if_neg hts] at h
      by_cases hdig : ts.takeWhile Char.isDigit = []
      · rw [if_pos hdig] at h
        simp at h
      · rw [if_neg hdig] at h
        cases hmul : USEC_MULTIPLIER
            ((ts.dropWhile Char.isDigit).takeWhile rustIsAlphabetic).asString with
        | none => rw [hmul] at h; simp at h
        | some multiplier =>
          rw [hmul] at h
          have hm1 : 1 ≤ multiplier := (USEC_MULTIPLIER_entry hmul).1
          have hd0 : (0 : Int) ≤ (digitsToNat (ts.takeWhile Char.isDigit) : Int) :=
            Int.natCast_nonneg _
          have hprod : 0 ≤ (digitsToNat (ts.takeWhile Char.isDigit) : Int) * multiplier :=
            mul_nonneg hd0 (by omega)
          have := ih _ _ _ h
          omega

/-- Soundness of the checked accumulation: a successful `parse_offset_go` run
returns exactly the unbounded total, which lies within the `i64` range. -/
theorem go_ok_unbounded :
    ∀ (fuel : Nat) (ts : List Char) (total v : Int),
      0 ≤ total → total ≤ i64Max →
      parse_offset_go fuel total ts = .ok v →
      parse_offset_unbounded_go fuel total ts = some v ∧ total ≤ v ∧ v ≤ i64Max := by
  intro fuel
  induction fuel with
  | zero =>
    intro ts total v _ _ h
    simp [parse_offset_go] at h
  | succ f ih =>
    intro ts total v h0 h1 h
    by_cases hts : ts = []
    · subst hts
      simp [parse_offset_go] at h
      subst h
      simp [parse_offset_unbounded_go]
      omega
    · simp only [parse_offset_go, partition_predicate, if_neg hts] at h
      split at h
      · simp at h
      rename_i number hnum
      split at h
      · simp at h
      rename_i multiplier hmul
      split at h
      · simp at h
      rename_i usecs hck
      have hdig : ts.takeWhile Char.isDigit ≠ [] := by
        intro he
        rw [he] at hnum
        simp [rustParseI64, rustParseI64Core] at hnum
      have hdall : ∀ c ∈ ts.takeWhile Char.isDigit, c.isDigit = true :=
        fun c hc => List.mem_takeWhile_imp hc
      have hnum2 := hnum
      rw [rustParseI64_all_digits hdig hdall] at hnum2
      have hnval : number = (digitsToNat (ts.takeWhile Char.isDigit) : Int) ∧
          (digitsToNat (ts.takeWhile Char.isDigit) : Int) ≤ i64Max := by
        by_cases hle : (digitsToNat (ts.takeWhile Char.isDigit) : Int) ≤ i64Max
        · rw [if_pos hle] at hnum2
          exact ⟨by simpa using hnum2.symm, hle⟩
        · rw [if_neg hle] at hnum2
          simp at hnum2
      have hm1 : 1 ≤ multiplier := (USEC_MULTIPLIER_entry hmul).1
      have hn0 : 0 ≤ number := by
        rw [hnval.1]
        exact Int.natCast_nonneg _
      have husecs : usecs = number * multiplier + total ∧
          i64Min ≤ number * multiplier ∧ number * multiplier ≤ i64Max ∧
          i64Min ≤ number * multiplier + total ∧
          number * multiplier + total ≤ i64Max := by
        unfold checkedMul checkedAdd at hck
        by_cases hc1 : i64Min ≤ number * multiplier ∧ number * multiplier ≤ i64Max
        · rw [if_pos hc1] at hck
          simp only [Option.some_bind] at hck
          by_cases hc2 : i64Min ≤ number * multiplier + total ∧
              number * multiplier + total ≤ i64Max
          · rw [if_pos hc2] at hck
            simp at hck
            exact ⟨hck.symm, hc1.1, hc1.2, hc2.1, hc2.2⟩
          · rw [if_neg hc2] at hck
            simp at hck
        · rw [if_neg hc1] at hck
          simp at hck
      have hprod0 : 0 ≤ number * multiplier := mul_nonneg hn0 (by omega)
      have ihr := ih _ _ _ (by omega) (by omega) h
      refine ⟨?_, by omega, ihr.2.2⟩
      simp only [parse_offset_unbounded_go, partition_predicate, if_neg hts,
        if_neg hdig, hmul]
      rw [show total + (digitsToNat (ts.takeWhile Char.isDigit) : Int) * multiplier
          = usecs from by rw [husecs.1, hnval.1]; omega]
      exact ihr.1

/-- Completeness / overflow dichotomy: if the exact unbounded total of an
offset expression is `v`, the checked parser returns `v` when `v` fits in
`i64` and fails with a `Number` error when it does not. -/
theorem go_unbounded_run :
    ∀ (fuel : Nat) (ts : List Char) (total v : Int),
      0 ≤ total → total ≤ i64Max →
      parse_offset_unbounded_go fuel total ts = some v →
      (v ≤ i64Max → parse_offset_go fuel total ts = .ok v) ∧
      (i64Max < v → ∃ msg, parse_offset_go fuel total ts = .error (.Number msg)) := by
  intro fuel
  induction fuel with
  | zero =>
    intro ts total v _ _ h
    simp [parse_offset_unbounded_go] at h
  | succ f ih =>
    intro ts total v h0 h1 h
    by_cases hts : ts = []
    · subst hts
      simp [parse_offset_unbounded_go] at h
      subst h
      exact ⟨fun _ => by simp [parse_offset_go], fun hv => absurd h1 (by omega)⟩
    · simp only [parse_offset_unbounded_go, partition_predicate, if_neg hts] at h
      by_cases hdig : ts.takeWhile Char.isDigit = []
      · rw [if_pos hdig] at h
        simp at h
      rw [if_neg hdig] at h
      split at h
      · simp at h
      rename_i multiplier hmul
      have hdall : ∀ c ∈ ts.takeWhile Char.isDigit, c.isDigit = true :=
        fun c hc => List.mem_takeWhile_imp hc
      have hm1 : 1 ≤ multiplier := (USEC_MULTIPLIER_entry hmul).1
      have hd0 : (0 : Int) ≤ (digitsToNat (ts.takeWhile Char.isDigit) : Int) :=
        Int.natCast_nonneg _
      have hprod0 : 0 ≤ (digitsToNat (ts.takeWhile Char.isDigit) : Int) * multiplier :=
        mul_nonneg hd0 (by omega)
      have hdlep : (digitsToNat (ts.takeWhile Char.isDigit) : Int) ≤
          (digitsToNat (ts.takeWhile Char.isDigit) : Int) * multiplier :=
        le_mul_of_one_le_right hd0 hm1
      have hmono := go_unbounded_mono _ _ _ _ h
      rw [Int.add_comm] at h
      constructor
      · intro hv
        have hdle : (digitsToNat (ts.takeWhile Char.isDigit) : Int) ≤ i64Max := by omega
        have hnum : rustParseI64 (ts.takeWhile Char.isDigit) =
            some ((digitsToNat (ts.takeWhile Char.isDigit) : Int)) := by
          rw [rustParseI64_all_digits hdig hdall, if_pos hdle]
        have hckm : checkedMul ((digitsToNat (ts.takeWhile Char.isDigit) : Int)) multiplier =
            some ((digitsToNat (ts.takeWhile Char.isDigit) : Int) * multiplier) := by
          unfold checkedMul
          rw [if_pos ⟨by have := i64Min_neg; omega, by omega⟩]
        have hcka : checkedAdd ((digitsToNat (ts.takeWhile Char.isDigit) : Int) * multiplier)
            total = some ((digitsToNat (ts.takeWhile Char.isDigit) : Int) * multiplier + total) := by
          unfold checkedAdd
          rw [if_pos ⟨by have := i64Min_neg; omega, by omega⟩]
        simp only [parse_offset_go, partition_predicate, if_neg hts, hnum, hmul, hckm,
          Option.some_bind, hcka]
        exact (ih _ _ _ (by omega) (by omega) h).1 hv
      · intro hv
        by_cases hdle : (digitsToNat (ts.takeWhile Char.isDigit) : Int) ≤ i64Max
        · have hnum : rustParseI64 (ts.takeWhile Char.isDigit) =
              some ((digitsToNat (ts.takeWhile Char.isDigit) : Int)) := by
            rw [rustParseI64_all_digits hdig hdall, if_pos hdle]
          by_cases hmle : (digitsToNat (ts.takeWhile Char.isDigit) : Int) * multiplier ≤ i64Max
          · have hckm : checkedMul ((digitsToNat (ts.takeWhile Char.isDigit) : Int)) multiplier =
                some ((digitsToNat (ts.takeWhile Char.isDigit) : Int) * multiplier) := by
              unfold checkedMul
              rw [if_pos ⟨by have := i64Min_neg; omega, by omega⟩]
            by_cases hsle : (digitsToNat (ts.takeWhile Char.isDigit) : Int) * multiplier +
                total ≤ i64Max
            · have hcka : checkedAdd ((digitsToNat (ts.takeWhile Char.isDigit) : Int) *
                  multiplier) total =
                  some ((digitsToNat (ts.takeWhile Char.isDigit) : Int) * multiplier + total) := by
                unfold checkedAdd
                rw [if_pos ⟨by have := i64Min_neg; omega, by omega⟩]
              obtain ⟨msg, hmsg⟩ := (ih _ _ _ (by omega) (by omega) h).2 hv
              refine ⟨msg, ?_⟩
              simp only [parse_offset_go, partition_predicate, if_neg hts, hnum, hmul, hckm,
                Option.some_bind, hcka]
              exact hmsg
            · have hcka : checkedAdd ((digitsToNat (ts.takeWhile Char.isDigit) : Int) *
                  multiplier) total = none := by
                unfold checkedAdd
                rw [if_neg]
                intro hc
                exact hsle hc.2
              refine ⟨("Offset microseconds overflowed: total_usecs `" ++ toString total ++
                "` number `" ++ toString ((digitsToNat (ts.takeWhile Char.isDigit) : Int)) ++
                "` multiplier `" ++ toString multiplier ++ "`"), ?_⟩
              simp only [parse_offset_go, partition_predicate, if_neg hts, hnum, hmul, hckm,
                Option.some_bind, hcka]
          · have hckm : checkedMul ((digitsToNat (ts.takeWhile Char.isDigit) : Int))
                multiplier = none := by
              unfold checkedMul
              rw [if_neg]
              intro hc
              exact hmle hc.2
            refine ⟨("Offset microseconds overflowed: total_usecs `" ++ toString total ++
                "` number `" ++ toString ((digitsToNat (ts.takeWhile Char.isDigit) : Int)) ++
                "` multiplier `" ++ toString multiplier ++ "`"), ?_⟩
            simp only [parse_offset_go, partition_predicate, if_neg hts, hnum, hmul, hckm,
              Option.none_bind]
        · have hnum : rustParseI64 (ts.takeWhile Char.isDigit) = none := by
            rw [rustParseI64_all_digits hdig hdall, if_neg hdle]
          refine ⟨("Cannot parse `" ++ (ts.takeWhile Char.isDigit).asString ++
            "` into a number"), ?_⟩
          simp only [parse_offset_go, partition_predicate, if_neg hts, hnum]

theorem digit_not_alpha {c : Char} (h : c.isDigit = true) : c.isAlpha = false := by
  simp [Char.isDigit, Char.isAlpha, Char.isUpper, Char.isLower, Char.le_def] at *
  obtain ⟨h1, h2⟩ := h
  have n1 : (48 : UInt32).toNat ≤ c.val.toNat := h1
  have n2 : c.val.toNat ≤ (57 : UInt32).toNat := h2
  have e1 : (48 : UInt32).toNat = 48 := rfl
  have e2 : (57 : UInt32).toNat = 57 := rfl
  constructor
  · intro h3
    have n3 : (65 : UInt32).toNat ≤ c.val.toNat := h3
    have e3 : (65 : UInt32).toNat = 65 := rfl
    omega
  · intro h3
    have n3 : (97 : UInt32).toNat ≤ c.val.toNat := h3
    have e3 : (97 : UInt32).toNat = 97 := rfl
    omega

theorem digit_not_rustAlpha {c : Char} (h : c.isDigit = true) :
    rustIsAlphabetic c = false := by
  unfold rustIsAlphabetic
  rw [digit_not_alpha h]
  simp only [Bool.false_or, decide_eq_false_iff_not]
  intro he
  subst he
  simp at h

theorem rustAlpha_not_digit {c : Char} (h : rustIsAlphabetic c = true) :
    c.isDigit = false := by
  by_cases hd : c.isDigit = true
  · rw [digit_not_rustAlpha hd] at h
    simp at h
  · simpa using hd

theorem sumComps_nonneg (comps : List (List Char × List Char)) (h : compsOk comps) :
    0 ≤ sumComps comps := by
  induction comps with
  | nil => simp [sumComps]
  | cons c rest ih =>
    have hc := h c (by simp)
    obtain ⟨m, hm⟩ := Option.isSome_iff_exists.mp hc.2.2
    have hm1 : 1 ≤ m := (USEC_MULTIPLIER_entry hm).1
    have : 0 ≤ (digitsToNat c.1 : Int) * ((USEC_MULTIPLIER c.2.asString).getD 0) := by
      rw [hm]
      exact mul_nonneg (Int.natCast_nonneg _) (by simp; omega)
    have hrest := ih (fun x hx => h x (by simp [hx]))
    simp only [sumComps]
    omega

/-- The exact accumulator on a flattened component list computes the exact
component sum. -/
theorem unbounded_flatten :
    ∀ (comps : List (List Char × List Char)) (fuel : Nat) (total : Int),
      (flattenComps comps).length < fuel → compsOk comps →
      parse_offset_unbounded_go fuel total (flattenComps comps) =
        some (total + sumComps comps) := by
  intro comps
  induction comps with
  | nil =>
    intro fuel total hf _
    cases fuel with
    | zero => simp at hf
    | succ f => simp [flattenComps, parse_offset_unbounded_go, sumComps]
  | cons c rest ih =>
    intro fuel total hf hok
    obtain ⟨hne, hdig, hsome⟩ := hok c (by simp)
    obtain ⟨m, hm⟩ := Option.isSome_iff_exists.mp hsome
    obtain ⟨hm1, hune, hualpha⟩ := USEC_MULTIPLIER_entry hm
    have hdata : (c.2.asString).data = c.2 := rfl
    rw [hdata] at hune hualpha
    cases fuel with
    | zero => simp at hf
    | succ f =>
      have hflat : flattenComps (c :: rest) = c.1 ++ (c.2 ++ flattenComps rest) := by
        simp [flattenComps]
      have htail : c.2 ++ flattenComps rest = [] ∨
          ∃ b t, c.2 ++ flattenComps rest = b :: t ∧ Char.isDigit b = false := by
        cases hc2 : c.2 with
        | nil => exact absurd hc2 hune
        | cons b t =>
          refine Or.inr ⟨b, t ++ flattenComps rest, by simp, ?_⟩
          exact rustAlpha_not_digit (hualpha b (by rw [hc2]; simp))
      have hsplit1 := takeWhile_append_split Char.isDigit c.1 (c.2 ++ flattenComps rest)
        hdig htail
      have htail2 : flattenComps rest = [] ∨
          ∃ b t, flattenComps rest = b :: t ∧ rustIsAlphabetic b = false := by
        cases rest with
        | nil => exact Or.inl rfl
        | cons c2 rest2 =>
          obtain ⟨hne2, hdig2, _⟩ := hok c2 (by simp)
          cases hc2 : c2.1 with
          | nil => exact absurd hc2 hne2
          | cons b t =>
            refine Or.inr ⟨b, t ++ c2.2 ++ flattenComps rest2, ?_, ?_⟩
            · simp [flattenComps, hc2]
            · exact digit_not_rustAlpha (hdig2 b (by rw [hc2]; simp))
      have hsplit2 := takeWhile_append_split rustIsAlphabetic c.2 (flattenComps rest)
        hualpha htail2
      have hflatne : flattenComps (c :: rest) ≠ [] := by
        rw [hflat]
        cases hc1 : c.1 with
        | nil => exact absurd hc1 hne
        | cons b t => simp
      rw [hflat]
      simp only [parse_offset_unbounded_go, partition_predicate]
      rw [if_neg (by rw [← hflat]; exact hflatne), hsplit1.1, hsplit1.2, hsplit2.1, hsplit2.2,
        if_neg hne]
      simp only [hm]
      have hlen : (flattenComps rest).length < f := by
        have : (flattenComps (c :: rest)).length =
            c.1.length + c.2.length + (flattenComps rest).length := by
          simp [flattenComps]
          omega
        have hc1 : 1 ≤ c.1.length := by
          cases hx : c.1 with
          | nil => exact absurd hx hne
          | cons b t => simp
        omega
      rw [ih f _ hlen (fun x hx => hok x (by simp [hx]))]
      simp only [sumComps, hm, Option.getD_some, Option.some.injEq]
      ring

theorem i64Max_nonneg : (0 : Int) ≤ i64Max := by decide

/-- Top-level soundness: a successful `parse_offset` equals the exact
unbounded component sum, which is nonnegative and fits in `i64`. -/
theorem parse_offset_sound {ts : List Char} {v : Int} (h : parse_offset ts = .ok v) :
    parse_offset_unbounded ts = some v ∧ 0 ≤ v ∧ v ≤ i64Max := by
  have := go_ok_unbounded (ts.length + 1) ts 0 v le_rfl i64Max_nonneg h
  exact ⟨this.1, this.2.1, this.2.2⟩

/-- Top-level dichotomy: when the exact unbounded total is defined, the
checked parser either returns it exactly (if it fits) or fails with a
`Number` error (if it overflows). -/
theorem parse_offset_runs {ts : List Char} {v : Int} (h : parse_offset_unbounded ts = some v) :
    (v ≤ i64Max → parse_offset ts = .ok v) ∧
    (i64Max < v → ∃ msg, parse_offset ts = .error (.Number msg)) :=
  go_unbounded_run (ts.length + 1) ts 0 v le_rfl i64Max_nonneg h

/-- A digit run whose number fits `i64`, not followed by a letter run,
makes `parse_offset_go` fail with the empty-unit `TimeUnit` error. -/
theorem go_bare_number_timeunit (fuel : Nat) (total : Int) (digits rest : List Char)
    (hf : fuel ≠ 0) (hne : digits ≠ []) (hdig : ∀ c ∈ digits, c.isDigit = true)
    (hfit : (digitsToNat digits : Int) ≤ i64Max)
    (hrest : rest = [] ∨ ∃ b t, rest = b :: t ∧ b.isDigit = false ∧ rustIsAlphabetic b = false) :
    parse_offset_go fuel total (digits ++ rest) =
      .error (.TimeUnit "Cannot parse `` into a multipler") := by
  cases fuel with
  | zero => exact absurd rfl hf
  | succ f =>
    have htail : rest = [] ∨ ∃ b t, rest = b :: t ∧ Char.isDigit b = false := by
      rcases hrest with h | ⟨b, t, hbt, hb, _⟩
      · exact Or.inl h
      · exact Or.inr ⟨b, t, hbt, hb⟩
    have hsplit := takeWhile_append_split Char.isDigit digits rest hdig htail
    have hletters : rest.takeWhile rustIsAlphabetic = [] := by
      rcases hrest with h | ⟨b, t, hbt, _, hb⟩
      · rw [h]; rfl
      · rw [hbt, List.takeWhile_cons_of_neg (by simp [hb])]
    have hnum : rustParseI64 digits = some ((digitsToNat digits : Int)) := by
      rw [rustParseI64_all_digits hne hdig, if_pos hfit]
    have hcat : digits ++ rest ≠ [] := by
      cases hd : digits with
      | nil => exact absurd hd hne
      | cons b t => simp [hd]
    simp only [parse_offset_go, partition_predicate, if_neg hcat, hsplit.1, hsplit.2,
      hletters, hnum]
    rfl

/-! ## Claim theorems -/

/-- C1: for every offset expression, multiplication of a component number by
its unit multiplier, or addition of that product to the running microsecond
total, failing the signed 64-bit range check makes parsing fail with a
`Number` error; a successful parse returns exactly the unbounded
mathematical total, which lies in the `i64` range — never a wrapped,
truncated, or saturated value. -/
theorem claim_C1_offset_overflow_rejected :
    (∀ (ts : List Char) (v : Int), parse_offset ts = .ok v →
        parse_offset_unbounded ts = some v ∧ i64Min ≤ v ∧ v ≤ i64Max) ∧
    (∀ (ts : List Char) (v : Int), parse_offset_unbounded ts = some v → i64Max < v →
        ∃ msg, parse_offset ts = .error (.Number msg)) := by
  constructor
  · intro ts v h
    have hs := parse_offset_sound h
    have := i64Min_neg
    exact ⟨hs.1, by omega, hs.2.2⟩
  · intro ts v h hv
    exact (parse_offset_runs h).2 hv

/-- Witness for C1: `"1000000000000y"` has exact total
`31557600000000000000000000` microseconds, which exceeds `i64Max`, and
`parse_offset` rejects it with a `Number` error. -/
theorem claim_C1_offset_overflow_rejected_witness :
    ∃ msg, parse_offset "1000000000000y".data = .error (.Number msg) :=
  claim_C1_offset_overflow_rejected.2 "1000000000000y".data
    31557600000000000000000000 (by rfl) (by decide)

/-- C5: components repeating the same unit are summed rather than
overwritten: on any well-formed component list whose exact sum fits `i64`,
`parse_offset` returns the sum over all `<number><unit>` components of
`number × multiplier`; in particular `"1s4m2s"` yields 3 seconds plus
4 minutes. -/
theorem claim_C5_repeated_units_sum :
    (∀ comps : List (List Char × List Char), compsOk comps → sumComps comps ≤ i64Max →
        parse_offset (flattenComps comps) = .ok (sumComps comps)) ∧
    parse_offset "1s4m2s".data = .ok (3 * USEC_PER_SEC + 4 * USEC_PER_MINUTE) := by
  constructor
  · intro comps hok hle
    have hu : parse_offset_unbounded (flattenComps comps) = some (0 + sumComps comps) :=
      unbounded_flatten comps ((flattenComps comps).length + 1) 0 (by omega) hok
    rw [zero_add] at hu
    exact (parse_offset_runs hu).1 hle
  · rfl

/-- Witness for C5: the component list of `"1s4m2s"` sums to
3 seconds + 4 minutes. -/
theorem claim_C5_repeated_units_sum_witness :
    parse_offset (flattenComps [("1".data, "s".data), ("4".data, "m".data),
      ("2".data, "s".data)]) =
      .ok (sumComps [("1".data, "s".data), ("4".data, "m".data), ("2".data, "s".data)]) :=
  claim_C5_repeated_units_sum.1
    [("1".data, "s".data), ("4".data, "m".data), ("2".data, "s".data)]
    (by unfold compsOk; decide) (by decide)

/-- C6: the offset parser on the empty string succeeds with a zero duration,
and for every (fixed-offset) timezone and current instant,
`parse("@", tz)` succeeds and equals `parse("epoch", tz)`. -/
theorem claim_C6_empty_offset_and_at_epoch :
    parse_offset ([] : List Char) = .ok 0 ∧
    ∀ (now off : Int), parse_timestamp_tz now off "@".data = .ok 0 ∧
      parse_timestamp_tz now off "@".data = parse_timestamp_tz now off "epoch".data :=
  ⟨rfl, fun _ _ => ⟨rfl, rfl⟩⟩

/-- C7 counterexample: the offset expression of `"+99999999999999999999"` is a
digit run not followed by a letter run (a bare number), yet the parse fails
with a `Number` error — not the `TimeUnit` error the claim requires. -/
theorem claim_C7_counterexample :
    isNumberErr (parse_timestamp_tz 0 0 "+99999999999999999999".data) = true ∧
    isTimeUnitErr (parse_timestamp_tz 0 0 "+99999999999999999999".data) = false :=
  ⟨rfl, rfl⟩

/-- C7 (amended): a digit run whose number fits the signed 64-bit range and
that is not followed by a letter run yields an empty unit string that fails
the unit-table lookup, so the parse fails with a `TimeUnit` error; in
particular `"+5"`, `"5 ago"` and `"today -5s 6"` fail with `TimeUnit`
errors.  (A digit run whose number itself overflows `i64` instead fails
earlier with a `Number` error.) -/
theorem claim_C7_bare_number_timeunit :
    (∀ (fuel : Nat) (total : Int) (digits rest : List Char), fuel ≠ 0 → digits ≠ [] →
        (∀ c ∈ digits, c.isDigit = true) → (digitsToNat digits : Int) ≤ i64Max →
        (rest = [] ∨ ∃ b t, rest = b :: t ∧ b.isDigit = false ∧ rustIsAlphabetic b = false) →
        parse_offset_go fuel total (digits ++ rest) =
          .error (.TimeUnit "Cannot parse `` into a multipler")) ∧
    ∀ (now off : Int),
      isTimeUnitErr (parse_timestamp_tz now off "+5".data) = true ∧
      isTimeUnitErr (parse_timestamp_tz now off "5 ago".data) = true ∧
      isTimeUnitErr (parse_timestamp_tz now off "today -5s 6".data) = true :=
  ⟨go_bare_number_timeunit, fun _ _ => ⟨rfl, rfl, rfl⟩⟩

/-- Witness for C7 (amended): the bare digit run `"5"` alone fails with the
empty-unit `TimeUnit` error. -/
theorem claim_C7_bare_number_timeunit_witness :
    parse_offset_go 2 0 ("5".data ++ []) =
      .error (.TimeUnit "Cannot parse `` into a multipler") :=
  claim_C7_bare_number_timeunit.1 2 0 "5".data [] (by decide) (by decide)
    (by decide) (by decide) (Or.inl rfl)

/-- C9: duration arithmetic on a `LocalDateTime` applies the duration to
every branch independently: `Single` stays `Single` and `Ambiguous` stays
`Ambiguous`, with the duration added to (or subtracted from) each branch. -/
theorem claim_C9_localdatetime_branchwise :
    ∀ (a b d : Int),
      (LocalDateTime.Single a).add d = .Single (a + d) ∧
      (LocalDateTime.Single a).sub d = .Single (a - d) ∧
      (LocalDateTime.Ambiguous a b).add d = .Ambiguous (a + d) (b + d) ∧
      (LocalDateTime.Ambiguous a b).sub d = .Ambiguous (a - d) (b - d) :=
  fun _ _ _ => ⟨rfl, rfl, rfl, rfl⟩

/-- C10: whenever the offset parser succeeds, the duration it returns is
nonnegative — the sign of an offset is applied only by the dispatcher. -/
theorem claim_C10_offset_nonneg :
    ∀ (ts : List Char) (v : Int), parse_offset ts = .ok v → 0 ≤ v :=
  fun _ _ h => (parse_offset_sound h).2.1

/-- Witness for C10: `"1s"` parses to `1000000 ≥ 0`. -/
theorem claim_C10_offset_nonneg_witness : (0 : Int) ≤ 1000000 :=
  claim_C10_offset_nonneg "1s".data 1000000 (by rfl)

/-- C8: a timestamp whose base and modifier are not separated by a space,
such as `"today+1s"` (and likewise `"today-1s"`), fails with a `Format`
error, and any timestamp whose original string contains both a `" +"` and a
`" -"` occurrence — such as `"today - 1s + 5m"` — fails with the
both-modifiers `Format` error before any sub-parser runs. -/
theorem claim_C8_format_rejections :
    (∀ (now off : Int),
      parse_timestamp_tz now off "today+1s".data =
        .error (.Format "Cannot parse `today+1s` into a time") ∧
      parse_timestamp_tz now off "today-1s".data =
        .error (.Format "Cannot parse `today-1s` into a time") ∧
      parse_timestamp_tz now off "today - 1s + 5m".data =
        .error (.Format "Timestamp cannot contain both a `+` and `-`")) ∧
    (∀ (now off : Int) (ts : List Char) (p m : Nat),
      stripWs ts ≠ [] → ts.head? ≠ some '+' → " left".data.isSuffixOf ts = false →
      ts.head? ≠ some '-' → " ago".data.isSuffixOf ts = false → ts.head? ≠ some '@' →
      findSubstr " +".data ts = some p → findSubstr " -".data ts = some m →
      parse_timestamp_tz now off ts =
        .error (.Format "Timestamp cannot contain both a `+` and `-`")) := by
  constructor
  · exact fun _ _ => ⟨rfl, rfl, rfl⟩
  · intro now off ts p m h1 h2 h3 h4 h5 h6 h7 h8
    simp [parse_timestamp_tz, h1, h2, h3, h4, h5, h6, h7, h8]

/-- Witness for C8: `"a +1s -2s"` contains `" +"` (at 1) and `" -"` (at 5)
and is rejected with the both-modifiers `Format` error. -/
theorem claim_C8_format_rejections_witness :
    parse_timestamp_tz 0 0 "a +1s -2s".data =
      .error (.Format "Timestamp cannot contain both a `+` and `-`") :=
  claim_C8_format_rejections.2 0 0 "a +1s -2s".data 1 5 (by decide) (by decide)
    (by decide) (by decide) (by decide) (by decide) (by decide) (by decide)

/-- C3 counterexample: `"today + 1s"` parses to local midnight plus one
second, but `"today  +  1s"` — the claim's own third example, with extra
whitespace before the `+` — fails with a `Format` error because the base
substring before the first `" +"` becomes `"today "` (trailing space),
which matches no keyword or pattern. -/
theorem claim_C3_counterexample :
    parse_timestamp_tz 0 0 "today + 1s".data = .ok 1000000 ∧
    parse_timestamp_tz 0 0 "today  +  1s".data =
      .error (.Format "Cannot parse `today ` into a time") :=
  ⟨rfl, rfl⟩

/-- C3 (amended): extra whitespace after the sign, or between a number and
its unit, does not change the result (`"today +1s"`, `"today + 1s"` and
`"today +  1  s"` all parse to today-midnight plus one second, for every
timezone offset and current instant); but extra whitespace *before* the
sign changes the base substring, and `"today  +  1s"` fails with a
`Format` error. -/
theorem claim_C3_whitespace_after_sign :
    ∀ (now off : Int),
      parse_timestamp_tz now off "today +1s".data = .ok (todayAndHms0 now off + 1000000) ∧
      parse_timestamp_tz now off "today + 1s".data = .ok (todayAndHms0 now off + 1000000) ∧
      parse_timestamp_tz now off "today +  1  s".data = .ok (todayAndHms0 now off + 1000000) ∧
      parse_timestamp_tz now off "today  +  1s".data =
        .error (.Format "Cannot parse `today ` into a time") :=
  fun _ _ => ⟨rfl, rfl, rfl, rfl⟩

/-- C4 counterexample: the time string `"1:02:03.-1"` has `"-1"` after the
`.` — not a non-negative integer — yet the parse succeeds (adding the
negative microsecond count), instead of failing with the `Number` error the
claim requires. -/
theorem claim_C4_counterexample :
    parse_timestamp_tz 0 0 "1:02:03.-1".data = .ok 3722999999 := rfl

/-- C4 (amended): when the time string contains a literal `.`, the substring
before the first `.` must match the two-digit-year or four-digit-year
date-plus-`HH:MM:SS` pattern or the bare `HH:MM:SS` pattern, tried in that
order (`dotTimeCandidates`), and the substring after the `.` must parse per
Rust's signed 64-bit integer syntax (an optional sign, so negative counts
are accepted and subtract), with the value added to the resolved time;
failure of the pre-`.` part yields a `Format` error naming the offending
substring, and failure of the post-`.` part (non-numeric or overflowing)
yields a `Number` error. -/
theorem claim_C4_dot_handling :
    (∀ (now off : Int) (ts : List Char), '.' ∈ ts →
      parse_time now off ts =
        match dotTimeCandidates now off (ts.takeWhile (fun c => c ≠ '.')) with
        | none =>
          .error (.Format ("Cannot parse `" ++
            (ts.takeWhile (fun c => c ≠ '.')).asString ++ "` before '.' into a time"))
        | some dt =>
          match rustParseI64 ((ts.dropWhile (fun c => c ≠ '.')).drop 1) with
          | none =>
            .error (.Number ("Cannot parse `" ++
              ((ts.dropWhile (fun c => c ≠ '.')).drop 1).asString ++
              "` after '.' into a number"))
          | some usecs => .ok (dt + usecs)) ∧
    parse_timestamp_tz 0 0 "2018-08-09 07:06:05.123".data = .ok 1533798365000123 ∧
    parse_timestamp_tz 0 0 "2018-08-09 07:06:05.123456789123456789123456789".data =
      .error (.Number "Cannot parse `123456789123456789123456789` after '.' into a number") ∧
    parse_timestamp_tz 0 0 "bad.123".data =
      .error (.Format "Cannot parse `bad` before '.' into a time") := by
  refine ⟨?_, rfl, rfl, rfl⟩
  intro now off ts hdot
  have h1 : ts ≠ "now".data := fun he => absurd (he ▸ hdot) (by decide)
  have h2 : ts ≠ "epoch".data := fun he => absurd (he ▸ hdot) (by decide)
  have h3 : ts ≠ "today".data := fun he => absurd (he ▸ hdot) (by decide)
  have h4 : ts ≠ "yesterday".data := fun he => absurd (he ▸ hdot) (by decide)
  have h5 : ts ≠ "tomorrow".data := fun he => absurd (he ▸ hdot) (by decide)
  simp only [parse_time, if_neg h1, if_neg h2, if_neg h3, if_neg h4, if_neg h5, if_pos hdot]

/-- Witness for C4 (amended): at `"09:11:12.123"` the characterization
hypothesis holds and the equation evaluates on both sides. -/
theorem claim_C4_dot_handling_witness :
    parse_time 0 0 "09:11:12.123".data =
      match dotTimeCandidates 0 0 ("09:11:12.123".data.takeWhile (fun c => c ≠ '.')) with
      | none =>
        .error (.Format ("Cannot parse `" ++
          ("09:11:12.123".data.takeWhile (fun c => c ≠ '.')).asString ++
          "` before '.' into a time"))
      | some dt =>
        match rustParseI64 (("09:11:12.123".data.dropWhile (fun c => c ≠ '.')).drop 1) with
        | none =>
          .error (.Number ("Cannot parse `" ++
            (("09:11:12.123".data.dropWhile (fun c => c ≠ '.')).drop 1).asString ++
            "` after '.' into a number"))
        | some usecs => .ok (dt + usecs) :=
  claim_C4_dot_handling.1 0 0 "09:11:12.123".data (by decide)

/-- C2: when no special prefix/suffix applies and the original string
contains `" -"` but not `" +"`, the base time is the substring before the
first `" -"`, the offset is the part of the whitespace-stripped string
after the last `-`, and the offset is subtracted; in particular, for every
fixed-offset timezone and current instant,
`parse("18-06-21 1:00 - 1h", tz) = parse("2018-06-21", tz)`. -/
theorem claim_C2_minus_split :
    (∀ (now off : Int) (ts : List Char) (m : Nat),
      stripWs ts ≠ [] → ts.head? ≠ some '+' → " left".data.isSuffixOf ts = false →
      ts.head? ≠ some '-' → " ago".data.isSuffixOf ts = false → ts.head? ≠ some '@' →
      findSubstr " +".data ts = none → findSubstr " -".data ts = some m →
      parse_timestamp_tz now off ts =
        (parse_time now off (ts.take m)).bind fun t =>
          (parse_offset (afterLastChar '-' (stripWs ts))).map fun o => t - o) ∧
    ∀ (now off : Int),
      parse_timestamp_tz now off "18-06-21 1:00 - 1h".data =
        parse_timestamp_tz now off "2018-06-21".data := by
  constructor
  · intro now off ts m h1 h2 h3 h4 h5 h6 h7 h8
    simp [parse_timestamp_tz, h1, h2, h3, h4, h5, h6, h7, h8]
  · intro now off
    have hA : parse_timestamp_tz now off "18-06-21 1:00 - 1h".data =
        .ok (1529542800000000 - off - 3600000000) := rfl
    have hB : parse_timestamp_tz now off "2018-06-21".data =
        .ok (1529539200000000 - off) := rfl
    rw [hA, hB]
    congr 1
    omega

/-- Witness for C2: at `"18-06-21 1:00 - 1h"` the first `" -"` is at index
13 and the split equation holds. -/
theorem claim_C2_minus_split_witness :
    parse_timestamp_tz 0 0 "18-06-21 1:00 - 1h".data =
      (parse_time 0 0 ("18-06-21 1:00 - 1h".data.take 13)).bind fun t =>
        (parse_offset (afterLastChar '-' (stripWs "18-06-21 1:00 - 1h".data))).map
          fun o => t - o :=
  claim_C2_minus_split.1 0 0 "18-06-21 1:00 - 1h".data 13 (by decide) (by decide)
    (by decide) (by decide) (by decide) (by decide) (by decide) (by decide)
